import Mathlib

/-!
A verification of the planar-geometry origami kernel in `origami.py`.

Embedding choices, applied uniformly:

* Scalar is `ℚ`.  The source computes with sympy exact scalars and the
  specification fixes the exact-arithmetic discipline as canonical
  ("treat exactness as the default"), so the accuracy-50 rounded
  comparisons of the source (`Vector.__eq__`, `Line.parallel_to`) are
  modelled as exact equality and exact `cross = 0` on `ℚ`.
* `sympy.sqrt` has no total rational counterpart, so every definition
  that needs it (`Vector.norm`, `Vector.normalize`, `axiom_3`) takes the
  square-root function `sq : ℚ → ℚ` as an explicit parameter; theorems
  quantify over it, and concrete instances use inputs whose norms are
  rational.
* `sympy.simplify` preserves exact values, so `simplify` is the identity
  at the level of values.
* Python exceptions are modelled with `Except Err`: `ValueError` raises
  keep their message, and the `NameError` raised by the misspelt name
  `sekf` in `LineSegment.intersects_line_segment` is `sekfNameErr`.
  Scalar division (sympy `/` on scalars, which yields `zoo`/`nan` rather
  than raising) is total `ℚ` division with junk value `0` at `0`;
  `Vector.__truediv__`, which does raise, is `Except`-valued.
* `sympy.Matrix.LUsolve` on the 2-by-2 system of `Line.intersects_line`
  (guarded by non-parallelism, so the matrix is nonsingular) returns the
  unique exact solution, written here in closed Cramer form; the lemmas
  `intersection_point_on_lines` and `on_two_lines_unique` check that
  the returned point is the unique common point of the two lines.
* Python `x in list` membership tests use the element type's `__eq__`:
  structural equality for `Vector` (`List.Mem`), the endpoint-swap
  relation `LineSegment.eq` for segments.
-/

deriving instance DecidableEq for Except

namespace Origami

/-- The error values the kernel can raise: sympy-level `ValueError`s with
their messages, and the `NameError` produced by the misspelt variable
`sekf` in the collinear-disjoint branch of segment intersection. -/
inductive Err where
  | valueError (msg : String)
  | nameError (msg : String)
deriving DecidableEq

/-- The `ValueError` of `Vector.__truediv__` on a zero scalar. -/
def divisionByZeroErr : Err := Err.valueError "Cannot divide a vector by 0"

/-- The `ValueError` of `axiom_1`/`axiom_2` on identical points. -/
def distinctPointsErr : Err := Err.valueError "Points are not distinct."

/-- The `ValueError` of `axiom_3` on identical segments. -/
def distinctSegmentsErr : Err := Err.valueError "Line segments are not distinct."

/-- The `NameError` raised when line 324 of `origami.py` evaluates the
undefined name `sekf`. -/
def sekfNameErr : Err := Err.nameError "sekf is not defined"

/-- `Vector` of `origami.py`: a two-dimensional vector with exact scalar
components. -/
structure Vector where
  x : ℚ
  y : ℚ
deriving DecidableEq

/-- `Vector.__add__`. -/
def Vector.add (a b : Vector) : Vector := ⟨a.x + b.x, a.y + b.y⟩

instance : Add Vector := ⟨Vector.add⟩

/-- `Vector.__sub__`. -/
def Vector.sub (a b : Vector) : Vector := ⟨a.x - b.x, a.y - b.y⟩

instance : Sub Vector := ⟨Vector.sub⟩

/-- `Vector.__mul__` (and `__rmul__`, which delegates to it): scaling by
a scalar. -/
def Vector.mul (v : Vector) (c : ℚ) : Vector := ⟨v.x * c, v.y * c⟩

instance : HMul Vector ℚ Vector := ⟨Vector.mul⟩

instance : HMul ℚ Vector Vector := ⟨fun c v => Vector.mul v c⟩

instance : Neg Vector := ⟨fun v => Vector.mul v (-1)⟩

/-- `Vector.__truediv__`: division of a vector by a scalar, raising
`ValueError` when the scalar is exactly zero and otherwise computing
`self * (1/other)`. -/
def Vector.truediv (v : Vector) (c : ℚ) : Except Err Vector :=
  if c = 0 then Except.error divisionByZeroErr else Except.ok (v * (1 / c))

/-- `Vector.dot`. -/
def Vector.dot (a b : Vector) : ℚ := a.x * b.x + a.y * b.y

/-- `Vector.cross`: the scalar magnitude of the 3D cross product. -/
def Vector.cross (a b : Vector) : ℚ := a.x * b.y - a.y * b.x

/-- `Vector.simplify`: `sympy.simplify` preserves the exact value, so it
is the identity at the level of values. -/
def Vector.simplify (v : Vector) : Vector := v

/-- `Vector.rotate` specialised to the angle pi/2, the only angle the
kernel applies it at: sympy evaluates `cos(pi/2) = 0` and
`sin(pi/2) = 1` exactly, so the rotation matrix sends `(x, y)` to
`(-y, x)`. -/
def Vector.rotate90 (v : Vector) : Vector := ⟨-v.y, v.x⟩

/-- `Line` of `origami.py`: a point on the line and a direction vector.
The source constructor performs no check on `d`. -/
structure Line where
  p : Vector
  d : Vector
deriving DecidableEq

/-- `Line.__init__` including its `None` defaults: a missing point
defaults to `(0, 0)` and a missing direction to `(1, 0)`; no degeneracy
check is performed on the direction. -/
def Line.ofParts (pOpt dOpt : Option Vector) : Line :=
  ⟨pOpt.getD ⟨0, 0⟩, dOpt.getD ⟨1, 0⟩⟩

/-- `Vector.project_onto_vector`. -/
def Vector.project_onto_vector (v w : Vector) : Vector :=
  (v.dot w / w.dot w) * w

/-- `Vector.project_onto_line`. -/
def Vector.project_onto_line (v : Vector) (l : Line) : Vector :=
  (v - l.p).project_onto_vector l.d + l.p

/-- `Vector.lies_on_line`: the point equals its own projection. -/
def Vector.lies_on_line (v : Vector) (l : Line) : Prop :=
  v = v.project_onto_line l

instance (v : Vector) (l : Line) : Decidable (v.lies_on_line l) := by
  unfold Vector.lies_on_line; infer_instance

/-- `Vector.reflect_across`: twice the projection minus the point. -/
def Vector.reflect_across (v : Vector) (l : Line) : Vector :=
  (2 : ℚ) * v.project_onto_line l - v

/-- `Line.parallel_to` in the exact discipline: the cross product of the
directions is exactly zero. -/
def Line.parallel_to (l m : Line) : Prop := l.d.cross m.d = 0

instance (l m : Line) : Decidable (l.parallel_to m) := by
  unfold Line.parallel_to; infer_instance

/-- `Line.__eq__`: the semantic same-line test, directions parallel and
the base point of the first on the second. -/
def Line.eq (l m : Line) : Prop := l.parallel_to m ∧ l.p.lies_on_line m

instance (l m : Line) : Decidable (l.eq m) := by
  unfold Line.eq; infer_instance

/-- `Line.simplify`. -/
def Line.simplify (l : Line) : Line := ⟨l.p.simplify, l.d.simplify⟩

/-- `Line.reflect_across`: reflect `p` and `p + d` and rebuild the line
through the two reflected points. -/
def Line.reflect_across (l m : Line) : Line :=
  Line.simplify ⟨l.p.reflect_across m, (l.p + l.d).reflect_across m - l.p.reflect_across m⟩

/-- `LineSegment` of `origami.py`: the two endpoints. -/
structure LineSegment where
  p1 : Vector
  p2 : Vector
deriving DecidableEq

/-- `LineSegment.__eq__`: equality up to swapping the endpoints. -/
def LineSegment.eq (s t : LineSegment) : Prop :=
  (s.p1 = t.p1 ∧ s.p2 = t.p2) ∨ (s.p1 = t.p2 ∧ s.p2 = t.p1)

instance (s t : LineSegment) : Decidable (s.eq t) := by
  unfold LineSegment.eq; infer_instance

/-- `LineSegment.simplify`. -/
def LineSegment.simplify (s : LineSegment) : LineSegment :=
  ⟨s.p1.simplify, s.p2.simplify⟩

/-- `LineSegment.line_through`: the infinite line through `p1` in the
direction `p2 - p1`. -/
def LineSegment.line_through (s : LineSegment) : Line := ⟨s.p1, s.p2 - s.p1⟩

/-- `LineSegment.reflect_across`. -/
def LineSegment.reflect_across (s : LineSegment) (m : Line) : LineSegment :=
  LineSegment.simplify ⟨s.p1.reflect_across m, s.p2.reflect_across m⟩

/-- `Vector.lies_on_line_segment`: on the infinite line, and the
parametric coordinate lies in `[0, 1]`. -/
def Vector.lies_on_line_segment (v : Vector) (s : LineSegment) : Prop :=
  v.lies_on_line s.line_through ∧
    0 ≤ (v - s.p1).dot (s.p2 - s.p1) / (s.p2 - s.p1).dot (s.p2 - s.p1) ∧
    (v - s.p1).dot (s.p2 - s.p1) / (s.p2 - s.p1).dot (s.p2 - s.p1) ≤ 1

instance (v : Vector) (s : LineSegment) : Decidable (v.lies_on_line_segment s) := by
  unfold Vector.lies_on_line_segment; infer_instance

/-- `Vector.norm` with the square root abstracted: `sqrt (v . v)`. -/
def Vector.norm (sq : ℚ → ℚ) (v : Vector) : ℚ := sq (v.dot v)

/-- `Vector.normalize`: divide by the norm (raising on a zero norm, via
`Vector.truediv`) and simplify. -/
def Vector.normalize (sq : ℚ → ℚ) (v : Vector) : Except Err Vector :=
  (v.truediv (v.norm sq)).map Vector.simplify

/-- `IntersectionType` of `origami.py`. -/
inductive IntersectionType where
  | single
  | none
  | infinite
deriving DecidableEq

/-- `Line.intersects_line`: `infinite` for the same line, `none` for
parallel distinct lines, otherwise the single point obtained by solving
the 2-by-2 linear system exactly (the closed form of `LUsolve` on the
nonsingular guarded system). -/
def Line.intersects_line (l m : Line) : IntersectionType × Option Vector :=
  if l.eq m then (IntersectionType.infinite, Option.none)
  else if l.parallel_to m then (IntersectionType.none, Option.none)
  else (IntersectionType.single,
    Option.some (l.p + ((m.p - l.p).cross m.d / l.d.cross m.d) * l.d))

/-- `Line.intersects_line_segment`: intersect with the segment's line,
then re-classify `single` as `none` when the point fails the segment's
parametric-bounds test. -/
def Line.intersects_line_segment (l : Line) (s : LineSegment) : IntersectionType × Option Vector :=
  match l.intersects_line s.line_through with
  | (IntersectionType.single, Option.some p) =>
      if p.lies_on_line_segment s then (IntersectionType.single, Option.some p)
      else (IntersectionType.none, Option.none)
  | (t, _) => (t, Option.none)

/-- `LineSegment.intersects_line`: delegates to `Line.intersects_line_segment`. -/
def LineSegment.intersects_line (s : LineSegment) (l : Line) : IntersectionType × Option Vector :=
  l.intersects_line_segment s

/-- `LineSegment.intersects_line_segment`, reproducing the source case
tree exactly.  In the collinear case with no coinciding endpoints the
source evaluates `t1 or t2 or t3 or lseg.p2.lies_on_line_segment(sekf)`;
`or` short-circuits, so when the first three containment tests all fail
Python evaluates the undefined name `sekf` and raises `NameError`, which
is the `Except.error sekfNameErr` branch here. -/
def LineSegment.intersects_line_segment (s lseg : LineSegment) :
    Except Err (IntersectionType × Option Vector) :=
  if s.line_through.parallel_to lseg.line_through then
    if s.line_through.eq lseg.line_through then
      if s.p1 = lseg.p1 then
        if s.p2.lies_on_line_segment lseg ∨ lseg.p2.lies_on_line_segment s then
          Except.ok (IntersectionType.infinite, Option.none)
        else Except.ok (IntersectionType.single, Option.some s.p1)
      else if s.p1 = lseg.p2 then
        if s.p2.lies_on_line_segment lseg ∨ lseg.p1.lies_on_line_segment s then
          Except.ok (IntersectionType.infinite, Option.none)
        else Except.ok (IntersectionType.single, Option.some s.p1)
      else if s.p2 = lseg.p1 then
        if s.p1.lies_on_line_segment lseg ∨ lseg.p2.lies_on_line_segment s then
          Except.ok (IntersectionType.infinite, Option.none)
        else Except.ok (IntersectionType.single, Option.some s.p2)
      else if s.p2 = lseg.p2 then
        if s.p1.lies_on_line_segment lseg ∨ lseg.p1.lies_on_line_segment s then
          Except.ok (IntersectionType.infinite, Option.none)
        else Except.ok (IntersectionType.single, Option.some s.p2)
      else
        if s.p1.lies_on_line_segment lseg ∨ s.p2.lies_on_line_segment lseg ∨
            lseg.p1.lies_on_line_segment s then
          Except.ok (IntersectionType.infinite, Option.none)
        else Except.error sekfNameErr
    else Except.ok (IntersectionType.none, Option.none)
  else
    match s.line_through.intersects_line lseg.line_through with
    | (IntersectionType.single, Option.some p) =>
        if p.lies_on_line_segment s ∧ p.lies_on_line_segment lseg then
          Except.ok (IntersectionType.single, Option.some p)
        else Except.ok (IntersectionType.none, Option.none)
    | (t, _) => Except.ok (t, Option.none)

/-- `OrigamiPaper` of `origami.py`: the accumulated points, the crease
list, and the fixed boundary. -/
structure OrigamiPaper where
  points : List Vector
  linesegs : List LineSegment
  boundary : List LineSegment
deriving DecidableEq

/-- `OrigamiPaper.__init__`: the four corners, and the four boundary
edges built from consecutive corner pairs (with wraparound), serving as
both the initial crease list and the fixed boundary. -/
def OrigamiPaper.init : OrigamiPaper :=
  { points := [⟨0, 0⟩, ⟨1, 0⟩, ⟨1, 1⟩, ⟨0, 1⟩]
  , linesegs := [⟨⟨0, 0⟩, ⟨1, 0⟩⟩, ⟨⟨1, 0⟩, ⟨1, 1⟩⟩, ⟨⟨1, 1⟩, ⟨0, 1⟩⟩, ⟨⟨0, 1⟩, ⟨0, 0⟩⟩]
  , boundary := [⟨⟨0, 0⟩, ⟨1, 0⟩⟩, ⟨⟨1, 0⟩, ⟨1, 1⟩⟩, ⟨⟨1, 1⟩, ⟨0, 1⟩⟩, ⟨⟨0, 1⟩, ⟨0, 0⟩⟩] }

/-- The loop of `OrigamiPaper.intersects_boundary` over the boundary
segments: an `infinite` edge intersection aborts the whole test, `none`
is skipped, and a `single` point is collected if not already present. -/
def boundaryScan (l : Line) : List LineSegment → List Vector → IntersectionType × Option (List Vector)
  | [], pts => (IntersectionType.single, Option.some pts)
  | seg :: rest, pts =>
    match seg.intersects_line l with
    | (IntersectionType.infinite, _) => (IntersectionType.infinite, Option.none)
    | (IntersectionType.none, _) => boundaryScan l rest pts
    | (IntersectionType.single, Option.some p) =>
        boundaryScan l rest (if p ∈ pts then pts else pts ++ [p])
    | (IntersectionType.single, Option.none) => boundaryScan l rest pts

/-- `OrigamiPaper.intersects_boundary`. -/
def OrigamiPaper.intersects_boundary (paper : OrigamiPaper) (l : Line) :
    IntersectionType × Option (List Vector) :=
  boundaryScan l paper.boundary []

/-- The loop of `OrigamiPaper.add_all_intersections` over the crease
list after insertion: collect every new `single` intersection point with
the inserted crease, propagating the exception segment-segment
intersection can raise. -/
def addScan (target : LineSegment) : List LineSegment → List Vector → Except Err (List Vector)
  | [], pts => Except.ok pts
  | seg :: rest, pts =>
    match seg.intersects_line_segment target with
    | Except.error e => Except.error e
    | Except.ok (IntersectionType.single, Option.some p) =>
        addScan target rest (if p ∈ pts then pts else pts ++ [p])
    | Except.ok _ => addScan target rest pts

/-- `OrigamiPaper.add_all_intersections`: clip the fold line against the
boundary; reject (a no-op) unless the classification is `single` and at
least two distinct points were collected; reject an endpoint-swap
duplicate of an existing crease; otherwise insert the crease and collect
all new single intersection points with every crease. -/
def OrigamiPaper.add_all_intersections (paper : OrigamiPaper) (l : Line) :
    Except Err OrigamiPaper :=
  match paper.intersects_boundary l with
  | (IntersectionType.single, Option.some (p0 :: p1 :: _)) =>
    if ∃ e ∈ paper.linesegs, LineSegment.eq ⟨p0, p1⟩ e then Except.ok paper
    else
      match addScan ⟨p0, p1⟩ (paper.linesegs ++ [⟨p0, p1⟩]) paper.points with
      | Except.error e => Except.error e
      | Except.ok newpts =>
          Except.ok { paper with points := newpts, linesegs := paper.linesegs ++ [⟨p0, p1⟩] }
  | _ => Except.ok paper

/-- `OrigamiPaper.axiom_1`: the fold line through two distinct points. -/
def OrigamiPaper.axiom_1 (p1 p2 : Vector) : Except Err Line :=
  if p1 = p2 then Except.error distinctPointsErr
  else Except.ok ⟨p1, p2 - p1⟩

/-- `OrigamiPaper.axiom_2`: the fold line placing `p1` onto `p2` - the
perpendicular bisector through the midpoint, with `(p2 - p1)` rotated a
quarter turn counter-clockwise. -/
def OrigamiPaper.axiom_2 (p1 p2 : Vector) : Except Err Line :=
  if p1 = p2 then Except.error distinctPointsErr
  else
    match (p1 + p2).truediv 2 with
    | Except.error e => Except.error e
    | Except.ok midpoint => Except.ok ⟨midpoint, (p2 - p1).rotate90⟩

/-- `OrigamiPaper.axiom_3`: the fold lines placing `lseg1` onto `lseg2`,
following the source exactly: the distinctness guard, the
already-overlapping early return, the parallel branch with its single
candidate, and the non-parallel branch with the two angle-bisector
candidates each verified by reflect-then-overlap. -/
def OrigamiPaper.axiom_3 (sq : ℚ → ℚ) (lseg1 lseg2 : LineSegment) : Except Err (List Line) :=
  if lseg1.eq lseg2 then Except.error distinctSegmentsErr
  else
    match lseg1.intersects_line_segment lseg2 with
    | Except.error e => Except.error e
    | Except.ok r =>
      if r.1 = IntersectionType.infinite then Except.ok []
      else if lseg1.line_through.parallel_to lseg2.line_through then
        match (lseg1.p1 + lseg2.p1).truediv 2 with
        | Except.error e => Except.error e
        | Except.ok mid =>
          match (lseg1.reflect_across ⟨mid, lseg1.line_through.d⟩).intersects_line_segment lseg2 with
          | Except.error e => Except.error e
          | Except.ok r2 =>
            if r2.1 ≠ IntersectionType.infinite then Except.ok []
            else Except.ok [⟨mid, lseg1.line_through.d⟩]
      else
        match lseg1.line_through.d.normalize sq with
        | Except.error e => Except.error e
        | Except.ok u1 =>
          match lseg2.line_through.d.normalize sq with
          | Except.error e => Except.error e
          | Except.ok u2 =>
            match (lseg1.reflect_across
                (Line.ofParts (lseg1.line_through.intersects_line lseg2.line_through).2
                  (Option.some (u1 + u2)))).intersects_line_segment lseg2 with
            | Except.error e => Except.error e
            | Except.ok r1 =>
              match (lseg1.reflect_across
                  (Line.ofParts (lseg1.line_through.intersects_line lseg2.line_through).2
                    (Option.some (u1 - u2)))).intersects_line_segment lseg2 with
              | Except.error e => Except.error e
              | Except.ok r2 =>
                Except.ok
                  ((if r1.1 = IntersectionType.infinite then
                      [Line.ofParts (lseg1.line_through.intersects_line lseg2.line_through).2
                        (Option.some (u1 + u2))]
                    else []) ++
                   (if r2.1 = IntersectionType.infinite then
                      [Line.ofParts (lseg1.line_through.intersects_line lseg2.line_through).2
                        (Option.some (u1 - u2))]
                    else []))

/-- `OrigamiPaper.axiom_4`: the fold line through `p` perpendicular to
the segment's line; always succeeds. -/
def OrigamiPaper.axiom_4 (p : Vector) (seg : LineSegment) : Line :=
  ⟨p, (seg.p2 - seg.p1).rotate90⟩

/-- The paper states reachable from the fresh paper by applying any
sequence of (successful) `add_all_intersections` calls. -/
inductive Reachable : OrigamiPaper → Prop where
  | init : Reachable OrigamiPaper.init
  | step (s : OrigamiPaper) (l : Line) (s' : OrigamiPaper) :
      Reachable s → s.add_all_intersections l = Except.ok s' → Reachable s'

/-- The inductive invariant of the paper state used to establish the
specification's paper invariants: the boundary is the fixed fresh
boundary, every boundary edge is recorded as a crease, `points` contains
both endpoints of every crease, no two creases are equal up to endpoint
swap, and both endpoints of every crease lie on a boundary edge. -/
def PaperInv (s : OrigamiPaper) : Prop :=
  s.boundary = OrigamiPaper.init.boundary ∧
  (∀ b ∈ s.boundary, b ∈ s.linesegs) ∧
  (∀ c ∈ s.linesegs, c.p1 ∈ s.points ∧ c.p2 ∈ s.points) ∧
  s.linesegs.Pairwise (fun a b => ¬ a.eq b) ∧
  (∀ c ∈ s.linesegs,
    (∃ b ∈ s.boundary, c.p1.lies_on_line_segment b) ∧
    (∃ b ∈ s.boundary, c.p2.lies_on_line_segment b))

/-- The vertical perpendicular bisector `x = 1/2` that `axiom_2` returns
on the corners `(0,0)` and `(1,0)`. -/
def vline : Line := ⟨⟨1/2, 0⟩, ⟨0, 1⟩⟩

/-- The paper obtained from the fresh paper by inserting `vline`: the
two new boundary points `(1/2, 0)` and `(1/2, 1)` and the crease between
them. -/
def paperV : OrigamiPaper :=
  OrigamiPaper.mk
    [⟨0, 0⟩, ⟨1, 0⟩, ⟨1, 1⟩, ⟨0, 1⟩, ⟨1/2, 0⟩, ⟨1/2, 1⟩]
    [⟨⟨0, 0⟩, ⟨1, 0⟩⟩, ⟨⟨1, 0⟩, ⟨1, 1⟩⟩, ⟨⟨1, 1⟩, ⟨0, 1⟩⟩, ⟨⟨0, 1⟩, ⟨0, 0⟩⟩, ⟨⟨1/2, 0⟩, ⟨1/2, 1⟩⟩]
    OrigamiPaper.init.boundary

/-!
Computation lemmas: the vector operations evaluated on literal
components, used throughout to evaluate the kernel on concrete inputs.
-/

@[simp] theorem Vector.add_mk (a b c d : ℚ) :
    Vector.mk a b + Vector.mk c d = Vector.mk (a + c) (b + d) := rfl

@[simp] theorem Vector.sub_mk (a b c d : ℚ) :
    Vector.mk a b - Vector.mk c d = Vector.mk (a - c) (b - d) := rfl

@[simp] theorem Vector.mul_mk (a b c : ℚ) :
    Vector.mk a b * c = Vector.mk (a * c) (b * c) := rfl

@[simp] theorem Vector.smul_mk (a b c : ℚ) :
    c * Vector.mk a b = Vector.mk (a * c) (b * c) := rfl

@[simp] theorem Vector.dot_mk (a b c d : ℚ) :
    (Vector.mk a b).dot (Vector.mk c d) = a * c + b * d := rfl

@[simp] theorem Vector.cross_mk (a b c d : ℚ) :
    (Vector.mk a b).cross (Vector.mk c d) = a * d - b * c := rfl

@[simp] theorem Vector.rotate90_mk (a b : ℚ) :
    (Vector.mk a b).rotate90 = Vector.mk (-b) a := rfl

@[simp] theorem it_single_ne_none : IntersectionType.single = IntersectionType.none ↔ False := by
  decide

@[simp] theorem it_single_ne_infinite : IntersectionType.single = IntersectionType.infinite ↔ False := by
  decide

@[simp] theorem it_none_ne_single : IntersectionType.none = IntersectionType.single ↔ False := by
  decide

@[simp] theorem it_none_ne_infinite : IntersectionType.none = IntersectionType.infinite ↔ False := by
  decide

@[simp] theorem it_infinite_ne_single : IntersectionType.infinite = IntersectionType.single ↔ False := by
  decide

@[simp] theorem it_infinite_ne_none : IntersectionType.infinite = IntersectionType.none ↔ False := by
  decide

theorem Vector.add_def (a b : Vector) : a + b = ⟨a.x + b.x, a.y + b.y⟩ := rfl

theorem Vector.sub_def (a b : Vector) : a - b = ⟨a.x - b.x, a.y - b.y⟩ := rfl

theorem Vector.mul_def (v : Vector) (c : ℚ) : v * c = ⟨v.x * c, v.y * c⟩ := rfl

theorem Vector.smul_def (c : ℚ) (v : Vector) : c * v = ⟨v.x * c, v.y * c⟩ := rfl

theorem Vector.eq_iff (a b : Vector) : a = b ↔ a.x = b.x ∧ a.y = b.y := by
  cases a; cases b; simp

/-!
Error-shape lemmas: which error values each `Except`-valued operation
can produce.
-/

theorem truediv_error (v : Vector) (c : ℚ) (e : Err)
    (h : v.truediv c = Except.error e) : e = divisionByZeroErr := by
  unfold Vector.truediv at h
  split_ifs at h
  all_goals simp_all

theorem normalize_error (sq : ℚ → ℚ) (v : Vector) (e : Err)
    (h : v.normalize sq = Except.error e) : e = divisionByZeroErr := by
  unfold Vector.normalize at h
  cases htd : v.truediv (v.norm sq) with
  | error e' =>
    rw [htd] at h
    simp only [Except.map] at h
    cases h
    exact truediv_error _ _ _ htd
  | ok w => rw [htd] at h; simp [Except.map] at h

theorem intersects_line_segment_error (s t : LineSegment) (e : Err)
    (h : s.intersects_line_segment t = Except.error e) : e = sekfNameErr := by
  unfold LineSegment.intersects_line_segment at h
  repeat' split at h
  all_goals first
    | (cases h; done)
    | (cases h; rfl)

theorem axiom_3_error (sq : ℚ → ℚ) (s1 s2 : LineSegment) (e : Err)
    (hne : ¬ s1.eq s2) (h : OrigamiPaper.axiom_3 sq s1 s2 = Except.error e) :
    e = sekfNameErr ∨ e = divisionByZeroErr := by
  rw [OrigamiPaper.axiom_3, if_neg hne] at h
  repeat' split at h
  all_goals first
    | exact Or.inl (intersects_line_segment_error _ _ _ (by assumption))
    | exact Or.inr (truediv_error _ _ _ (by assumption))
    | exact Or.inr (normalize_error _ _ _ (by assumption))
    | (cases h; done)
    | (cases h; first
        | exact Or.inl (intersects_line_segment_error _ _ _ (by assumption))
        | exact Or.inr (truediv_error _ _ _ (by assumption))
        | exact Or.inr (normalize_error _ _ _ (by assumption)))

/-!
Geometry lemmas in the cross-product form of incidence: a point `x`
lies on the infinite line `l` exactly when `(x - l.p).cross l.d = 0`
(for a non-degenerate direction), two non-parallel lines meet in a
unique point, and the closed-form solution of `intersects_line` is that
point.
-/

theorem Vector.sub_add_cancel_vec (a b : Vector) : a - b + b = a := by
  rw [Vector.eq_iff]; simp [Vector.sub_def, Vector.add_def]

theorem dot_self_ne_zero (d : Vector) (hd : d ≠ ⟨0, 0⟩) : d.dot d ≠ 0 := by
  intro h
  apply hd
  rw [Vector.eq_iff]
  simp only [Vector.dot] at h
  show d.x = 0 ∧ d.y = 0
  constructor <;> nlinarith [mul_self_nonneg d.x, mul_self_nonneg d.y]

theorem cross_eq_zero_exists_smul (v d : Vector) (hd : d ≠ ⟨0, 0⟩) (h : v.cross d = 0) :
    ∃ c : ℚ, v = c * d := by
  simp only [Vector.cross] at h
  by_cases hx : d.x = 0
  · have hy : d.y ≠ 0 := fun hy => hd (by rw [Vector.eq_iff]; exact ⟨hx, hy⟩)
    refine ⟨v.y / d.y, ?_⟩
    rw [Vector.eq_iff]
    simp only [Vector.smul_def]
    constructor
    · rw [hx] at h ⊢
      have : v.x * d.y = 0 := by linarith
      rcases mul_eq_zero.mp this with h0 | h0
      · simp [h0]
      · exact absurd h0 hy
    · field_simp
  · refine ⟨v.x / d.x, ?_⟩
    rw [Vector.eq_iff]
    simp only [Vector.smul_def]
    constructor
    · field_simp
    · field_simp
      linarith

theorem proj_coefficient_smul (c : ℚ) (d : Vector) (hdd : d.dot d ≠ 0) :
    ((c * d : Vector).dot d / d.dot d) * d = c * d := by
  rw [Vector.eq_iff]
  simp only [Vector.smul_def, Vector.dot] at hdd ⊢
  constructor <;> · field_simp; ring

theorem lies_on_line_iff_cross (v : Vector) (l : Line) (hd : l.d ≠ ⟨0, 0⟩) :
    v.lies_on_line l ↔ (v - l.p).cross l.d = 0 := by
  unfold Vector.lies_on_line Vector.project_onto_line Vector.project_onto_vector
  constructor
  · intro h
    have h' : v - l.p = ((v - l.p).dot l.d / l.d.dot l.d) * l.d := by
      rw [Vector.eq_iff] at h ⊢
      simp only [Vector.add_def, Vector.smul_def, Vector.sub_def] at h ⊢
      constructor <;> [linarith [h.1]; linarith [h.2]]
    rw [h']
    simp only [Vector.cross, Vector.smul_def]
    ring
  · intro h
    obtain ⟨c, hc⟩ := cross_eq_zero_exists_smul _ _ hd h
    rw [hc, proj_coefficient_smul c l.d (dot_self_ne_zero l.d hd)]
    calc v = v - l.p + l.p := (Vector.sub_add_cancel_vec v l.p).symm
    _ = c * l.d + l.p := by rw [hc]

theorem on_two_lines_unique (l m : Line) (x y : Vector)
    (hnp : ¬ l.parallel_to m)
    (hx1 : (x - l.p).cross l.d = 0) (hx2 : (x - m.p).cross m.d = 0)
    (hy1 : (y - l.p).cross l.d = 0) (hy2 : (y - m.p).cross m.d = 0) : x = y := by
  have hC : l.d.x * m.d.y - l.d.y * m.d.x ≠ 0 := by
    intro hc
    exact hnp (by simp only [Line.parallel_to, Vector.cross]; linarith)
  simp only [Vector.cross, Vector.sub_def] at hx1 hx2 hy1 hy2
  rw [Vector.eq_iff]
  constructor
  · have h0 : (x.x - y.x) * (l.d.x * m.d.y - l.d.y * m.d.x) = 0 := by
      linear_combination l.d.x * hx2 - l.d.x * hy2 - m.d.x * hx1 + m.d.x * hy1
    have := mul_eq_zero.mp h0
    rcases this with h1 | h1
    · linarith
    · exact absurd h1 hC
  · have h0 : (x.y - y.y) * (l.d.x * m.d.y - l.d.y * m.d.x) = 0 := by
      linear_combination l.d.y * hx2 - l.d.y * hy2 - m.d.y * hx1 + m.d.y * hy1
    have := mul_eq_zero.mp h0
    rcases this with h1 | h1
    · linarith
    · exact absurd h1 hC

theorem intersection_point_on_lines (l m : Line) (hnp : ¬ l.parallel_to m) :
    ((l.p + ((m.p - l.p).cross m.d / l.d.cross m.d) * l.d) - l.p).cross l.d = 0 ∧
    ((l.p + ((m.p - l.p).cross m.d / l.d.cross m.d) * l.d) - m.p).cross m.d = 0 := by
  have hC : l.d.x * m.d.y - l.d.y * m.d.x ≠ 0 := by
    intro hc
    exact hnp (by simp only [Line.parallel_to, Vector.cross]; linarith)
  constructor
  · simp only [Vector.cross, Vector.add_def, Vector.sub_def, Vector.smul_def]
    ring
  · simp only [Vector.cross, Vector.add_def, Vector.sub_def, Vector.smul_def]
    field_simp
    ring

/-!
Classification lemmas: how each branch of the intersection routines is
entered and what it returns.
-/

theorem line_line_single_intro (l m : Line) (h1 : ¬ l.eq m) (h2 : ¬ l.parallel_to m) :
    l.intersects_line m =
      (IntersectionType.single,
        Option.some (l.p + ((m.p - l.p).cross m.d / l.d.cross m.d) * l.d)) := by
  unfold Line.intersects_line
  rw [if_neg h1, if_neg h2]

theorem line_line_single_elim (l m : Line) (x : Vector)
    (h : l.intersects_line m = (IntersectionType.single, Option.some x)) :
    ¬ l.eq m ∧ ¬ l.parallel_to m ∧
      x = l.p + ((m.p - l.p).cross m.d / l.d.cross m.d) * l.d := by
  unfold Line.intersects_line at h
  by_cases h1 : l.eq m
  · rw [if_pos h1] at h; exact absurd h (by simp)
  · rw [if_neg h1] at h
    by_cases h2 : l.parallel_to m
    · rw [if_pos h2] at h; exact absurd h (by simp)
    · rw [if_neg h2] at h
      injection h with h3 h4
      exact ⟨h1, h2, (Option.some.inj h4).symm⟩

theorem line_line_infinite_iff (l m : Line) :
    (l.intersects_line m).1 = IntersectionType.infinite ↔ l.eq m := by
  unfold Line.intersects_line
  split_ifs with h1 h2 <;> simp [h1]

theorem lineInter_single_elim (l : Line) (s : LineSegment) (x : Vector)
    (h : l.intersects_line_segment s = (IntersectionType.single, Option.some x)) :
    l.intersects_line s.line_through = (IntersectionType.single, Option.some x) ∧
      x.lies_on_line_segment s := by
  unfold Line.intersects_line_segment at h
  split at h
  · rename_i p heq
    split_ifs at h with hl
    · injection h with h3 h4
      injection h4 with h4
      subst h4
      exact ⟨heq, hl⟩
    · exact absurd h (by simp)
  · rename_i t snd heq
    injection h with h3 h4
    exact absurd h4 (by simp)

theorem lineInter_single_intro (l : Line) (s : LineSegment) (x : Vector)
    (hil : l.intersects_line s.line_through = (IntersectionType.single, Option.some x))
    (hon : x.lies_on_line_segment s) :
    l.intersects_line_segment s = (IntersectionType.single, Option.some x) := by
  unfold Line.intersects_line_segment
  simp only [hil]
  rw [if_pos hon]

theorem lineInter_infinite_intro (l : Line) (s : LineSegment) (h : l.eq s.line_through) :
    l.intersects_line_segment s = (IntersectionType.infinite, Option.none) := by
  unfold Line.intersects_line_segment Line.intersects_line
  rw [if_pos h]

theorem lineInter_not_infinite (l : Line) (s : LineSegment) (hne : ¬ l.eq s.line_through) :
    l.intersects_line_segment s = (IntersectionType.none, Option.none) ∨
    ∃ x, l.intersects_line_segment s = (IntersectionType.single, Option.some x) := by
  by_cases hp : l.parallel_to s.line_through
  · left
    unfold Line.intersects_line_segment Line.intersects_line
    rw [if_neg hne, if_pos hp]
  · have hil := line_line_single_intro l s.line_through hne hp
    by_cases hon : (l.p + ((s.line_through.p - l.p).cross s.line_through.d /
        l.d.cross s.line_through.d) * l.d).lies_on_line_segment s
    · right
      exact ⟨_, lineInter_single_intro l s _ hil hon⟩
    · left
      unfold Line.intersects_line_segment
      simp only [hil]
      rw [if_neg hon]

/-!
Claim theorems: error handling and concrete evaluations.
-/

/-- C9: dividing a `Vector` by a scalar fails with the division-by-zero
`ValueError` exactly when the scalar is exactly zero, and for every
non-zero scalar succeeds with the componentwise quotient. -/
theorem vector_truediv_division_by_zero (v : Vector) (c : ℚ) :
    (v.truediv c = Except.error divisionByZeroErr ↔ c = 0) ∧
    (c ≠ 0 → v.truediv c = Except.ok ⟨v.x / c, v.y / c⟩) := by
  constructor
  · constructor
    · intro h
      by_contra hc
      rw [Vector.truediv, if_neg hc] at h
      cases h
    · intro h
      rw [Vector.truediv, if_pos h]
  · intro h
    rw [Vector.truediv, if_neg h, Vector.mul_def]
    simp [division_def]

/-- C8 counterexample: constructing a `Line` whose direction vector is
`(0, 0)` succeeds, yielding a line with a zero direction - no
`DegenerateLine` error is raised. -/
theorem line_with_zero_direction_constructible :
    Line.ofParts (Option.some ⟨0, 0⟩) (Option.some ⟨0, 0⟩) = ⟨⟨0, 0⟩, ⟨0, 0⟩⟩ := rfl

/-- C8 amended: `Line.__init__` performs no degeneracy check: for every
point and direction, the zero direction included, construction succeeds
and stores the fields unchanged, so the invariant `d` not equal to
`(0,0)` is not enforced at construction time. -/
theorem line_ofParts_unchecked (p d : Vector) :
    Line.ofParts (Option.some p) (Option.some d) = ⟨p, d⟩ := rfl

/-- C2: on the collinear non-overlapping segments `(0,0)-(1,0)` and
`(2,0)-(3,0)`, none of whose endpoints coincide, the source raises the
sekf `NameError` instead of returning the `none` classification; on the
collinear overlapping segments `(0,0)-(2,0)` and `(1,0)-(3,0)` it does
return the `infinite` classification. -/
theorem intersects_line_segment_sekf_crash :
    LineSegment.intersects_line_segment ⟨⟨0, 0⟩, ⟨1, 0⟩⟩ ⟨⟨2, 0⟩, ⟨3, 0⟩⟩ =
      Except.error sekfNameErr ∧
    LineSegment.intersects_line_segment ⟨⟨0, 0⟩, ⟨2, 0⟩⟩ ⟨⟨1, 0⟩, ⟨3, 0⟩⟩ =
      Except.ok (IntersectionType.infinite, Option.none) := by
  constructor <;>
    norm_num [LineSegment.intersects_line_segment, Line.eq, Line.parallel_to,
      Vector.lies_on_line, Vector.lies_on_line_segment, Vector.project_onto_line,
      Vector.project_onto_vector, LineSegment.line_through, Vector.mk.injEq]

/-- C3: on the distinct, non-parallel segments `(1,0)-(2,0)` and
`(0,1)-(0,2)` (whose direction norms are 1, so any square root function
with `sq 1 = 1` matches sympy), `axiom_3` raises the sekf `NameError`
while verifying the second angle-bisector candidate, instead of
returning the list of accepted folds. -/
theorem axiom_3_sekf_crash (sq : ℚ → ℚ) (h1 : sq 1 = 1) :
    OrigamiPaper.axiom_3 sq ⟨⟨1, 0⟩, ⟨2, 0⟩⟩ ⟨⟨0, 1⟩, ⟨0, 2⟩⟩ = Except.error sekfNameErr := by
  norm_num [OrigamiPaper.axiom_3, LineSegment.intersects_line_segment, LineSegment.eq, Line.eq,
    Line.parallel_to, Vector.lies_on_line, Vector.lies_on_line_segment, Vector.project_onto_line,
    Vector.project_onto_vector, LineSegment.line_through, Line.intersects_line,
    LineSegment.reflect_across, LineSegment.simplify, Vector.simplify, Vector.reflect_across,
    Vector.normalize, Vector.norm, Vector.truediv, Except.map, h1, Line.ofParts, Vector.mk.injEq,
    Line.mk.injEq]

theorem axiom_3_sekf_crash_witness :
    OrigamiPaper.axiom_3 (fun _ => 1) ⟨⟨1, 0⟩, ⟨2, 0⟩⟩ ⟨⟨0, 1⟩, ⟨0, 2⟩⟩ =
      Except.error sekfNameErr :=
  axiom_3_sekf_crash (fun _ => 1) rfl

/-- C7 counterexample: with the degenerate line `b = Line((1,0),(0,0))`
(which `Line.__init__` admits), `a.intersects_line b` classifies `none`
while `b.intersects_line a` classifies `infinite`, so `intersects_line`
is not symmetric on all constructible lines. -/
theorem intersects_line_asymmetric :
    (Line.intersects_line ⟨⟨0, 0⟩, ⟨1, 0⟩⟩ ⟨⟨1, 0⟩, ⟨0, 0⟩⟩).1 = IntersectionType.none ∧
    (Line.intersects_line ⟨⟨1, 0⟩, ⟨0, 0⟩⟩ ⟨⟨0, 0⟩, ⟨1, 0⟩⟩).1 = IntersectionType.infinite := by
  constructor <;>
    norm_num [Line.intersects_line, Line.eq, Line.parallel_to, Vector.lies_on_line,
      Vector.project_onto_line, Vector.project_onto_vector, Vector.mk.injEq]

/-- C6: `axiom_1` and `axiom_2` fail with the distinct-points
`ValueError` exactly when the two points are equal, and `axiom_3` fails
with the distinct-segments `ValueError` exactly when the two segments
are equal up to endpoint swap; distinct arguments never produce these
errors. -/
theorem axiom_distinctness_guards :
    (∀ p1 p2 : Vector, OrigamiPaper.axiom_1 p1 p2 = Except.error distinctPointsErr ↔ p1 = p2) ∧
    (∀ p1 p2 : Vector, OrigamiPaper.axiom_2 p1 p2 = Except.error distinctPointsErr ↔ p1 = p2) ∧
    ∀ (sq : ℚ → ℚ) (s1 s2 : LineSegment),
      OrigamiPaper.axiom_3 sq s1 s2 = Except.error distinctSegmentsErr ↔ s1.eq s2 := by
  refine ⟨fun p1 p2 => ?_, fun p1 p2 => ?_, fun sq s1 s2 => ?_⟩
  · unfold OrigamiPaper.axiom_1
    split_ifs with h <;> simp [h]
  · unfold OrigamiPaper.axiom_2
    split_ifs with h
    · simp [h]
    · rw [Vector.truediv, if_neg (by norm_num : (2 : ℚ) ≠ 0)]
      simp [h]
  · constructor
    · intro h
      by_contra hne
      rcases axiom_3_error sq s1 s2 _ hne h with h' | h' <;>
        simp [distinctSegmentsErr, sekfNameErr, divisionByZeroErr] at h'
    · intro h
      rw [OrigamiPaper.axiom_3, if_pos h]

set_option maxHeartbeats 1000000 in
theorem add_init_vline : OrigamiPaper.init.add_all_intersections vline = Except.ok paperV := by
  norm_num [OrigamiPaper.add_all_intersections, OrigamiPaper.init, OrigamiPaper.intersects_boundary,
    boundaryScan, addScan, vline, paperV, LineSegment.intersects_line, Line.intersects_line_segment,
    LineSegment.intersects_line_segment, Line.intersects_line, Line.eq, Line.parallel_to,
    Vector.lies_on_line, Vector.lies_on_line_segment, Vector.project_onto_line,
    Vector.project_onto_vector, LineSegment.line_through, LineSegment.eq, Vector.simplify,
    LineSegment.simplify, Vector.mk.injEq, LineSegment.mk.injEq]

theorem boundaryScan_no_infinite (l : Line) (bs : List LineSegment) (acc : List Vector)
    (h : ∀ b ∈ bs, ¬ Line.eq l b.line_through) :
    ∃ pts, boundaryScan l bs acc = (IntersectionType.single, Option.some pts) ∧
      (acc.Nodup → pts.Nodup) ∧
      ∀ x, x ∈ pts ↔ x ∈ acc ∨ ∃ b ∈ bs, l.intersects_line_segment b =
        (IntersectionType.single, Option.some x) := by
  induction bs generalizing acc with
  | nil =>
    refine ⟨acc, rfl, fun hn => hn, fun x => ?_⟩
    simp
  | cons seg rest ih =>
    have hseg : ¬ Line.eq l seg.line_through := h seg (List.mem_cons_self _ _)
    have hrest : ∀ b ∈ rest, ¬ Line.eq l b.line_through :=
      fun b hb => h b (List.mem_cons_of_mem _ hb)
    rcases lineInter_not_infinite l seg hseg with hc | ⟨p, hc⟩
    · have hstep : boundaryScan l (seg :: rest) acc = boundaryScan l rest acc := by
        rw [boundaryScan, LineSegment.intersects_line, hc]
      obtain ⟨pts, h1, h2, h3⟩ := ih acc hrest
      refine ⟨pts, by rw [hstep]; exact h1, h2, fun x => ?_⟩
      rw [h3 x]
      constructor
      · rintro (hx | ⟨b, hb1, hb2⟩)
        · exact Or.inl hx
        · exact Or.inr ⟨b, List.mem_cons_of_mem _ hb1, hb2⟩
      · rintro (hx | ⟨b, hb1, hb2⟩)
        · exact Or.inl hx
        · rcases List.mem_cons.mp hb1 with rfl | hb1
          · rw [hc] at hb2
            exact absurd hb2 (by simp)
          · exact Or.inr ⟨b, hb1, hb2⟩
    · have hstep : boundaryScan l (seg :: rest) acc =
          boundaryScan l rest (if p ∈ acc then acc else acc ++ [p]) := by
        rw [boundaryScan, LineSegment.intersects_line, hc]
      obtain ⟨pts, h1, h2, h3⟩ := ih (if p ∈ acc then acc else acc ++ [p]) hrest
      refine ⟨pts, by rw [hstep]; exact h1, fun hn => h2 ?_, fun x => ?_⟩
      · split_ifs with hmem
        · exact hn
        · refine List.Nodup.append hn (List.nodup_singleton p) ?_
          intro a ha hpa
          rw [List.mem_singleton] at hpa
          subst hpa
          exact hmem ha
      · rw [h3 x]
        have hacc2 : (x ∈ (if p ∈ acc then acc else acc ++ [p])) ↔ x ∈ acc ∨ x = p := by
          split_ifs with hmem
          · constructor
            · exact Or.inl
            · rintro (hx | rfl)
              · exact hx
              · exact hmem
          · simp [List.mem_append]
        rw [hacc2]
        constructor
        · rintro ((hx | rfl) | ⟨b, hb1, hb2⟩)
          · exact Or.inl hx
          · exact Or.inr ⟨seg, List.mem_cons_self _ _, hc⟩
          · exact Or.inr ⟨b, List.mem_cons_of_mem _ hb1, hb2⟩
        · rintro (hx | ⟨b, hb1, hb2⟩)
          · exact Or.inl (Or.inl hx)
          · rcases List.mem_cons.mp hb1 with rfl | hb1
            · rw [hc] at hb2
              injection hb2 with hb3 hb4
              injection hb4 with hb4
              exact Or.inl (Or.inr hb4.symm)
            · exact Or.inr ⟨b, hb1, hb2⟩

/-- C10: for every line not collinear with a boundary edge,
`intersects_boundary` returns the `single` classification paired with
the deduplicated list of boundary intersection points - it never
returns the `none` classification, whatever the number of points found -
and when fewer than two points were collected `add_all_intersections`
rejects the line as a no-op through the length check alone. -/
theorem intersects_boundary_never_none (paper : OrigamiPaper) (l : Line)
    (h : ∀ b ∈ paper.boundary, ¬ Line.eq l b.line_through) :
    ∃ pts, paper.intersects_boundary l = (IntersectionType.single, Option.some pts) ∧
      pts.Nodup ∧
      (∀ x, x ∈ pts ↔ ∃ b ∈ paper.boundary,
        l.intersects_line_segment b = (IntersectionType.single, Option.some x)) ∧
      (pts.length < 2 → paper.add_all_intersections l = Except.ok paper) := by
  obtain ⟨pts, h1, h2, h3⟩ := boundaryScan_no_infinite l paper.boundary [] h
  have h1' : paper.intersects_boundary l = (IntersectionType.single, Option.some pts) := by
    rw [OrigamiPaper.intersects_boundary]
    exact h1
  refine ⟨pts, h1', h2 List.nodup_nil, fun x => by rw [h3 x]; simp, fun hlen => ?_⟩
  rcases pts with - | ⟨p0, pts'⟩
  · rw [OrigamiPaper.add_all_intersections, h1']
  · rcases pts' with - | ⟨p1, rest⟩
    · rw [OrigamiPaper.add_all_intersections, h1']
    · exfalso
      simp only [List.length_cons] at hlen
      omega

theorem intersects_boundary_never_none_witness :
    ∃ pts, OrigamiPaper.init.intersects_boundary ⟨⟨2, 0⟩, ⟨0, 1⟩⟩ =
        (IntersectionType.single, Option.some pts) ∧
      pts.Nodup ∧
      (∀ x, x ∈ pts ↔ ∃ b ∈ OrigamiPaper.init.boundary,
        Line.intersects_line_segment ⟨⟨2, 0⟩, ⟨0, 1⟩⟩ b =
          (IntersectionType.single, Option.some x)) ∧
      (pts.length < 2 →
        OrigamiPaper.init.add_all_intersections ⟨⟨2, 0⟩, ⟨0, 1⟩⟩ = Except.ok OrigamiPaper.init) :=
  intersects_boundary_never_none OrigamiPaper.init ⟨⟨2, 0⟩, ⟨0, 1⟩⟩ (by
    norm_num [OrigamiPaper.init, Line.eq, Line.parallel_to, Vector.lies_on_line,
      Vector.project_onto_line, Vector.project_onto_vector, LineSegment.line_through,
      Vector.mk.injEq])

theorem Vector.cross_antisymm (a b : Vector) : a.cross b = -(b.cross a) := by
  simp only [Vector.cross]
  ring

theorem parallel_to_symm (l m : Line) : l.parallel_to m ↔ m.parallel_to l := by
  unfold Line.parallel_to
  rw [Vector.cross_antisymm, neg_eq_zero]

theorem line_eq_symm (l m : Line) (hl : l.d ≠ ⟨0, 0⟩) (hm : m.d ≠ ⟨0, 0⟩)
    (h : l.eq m) : m.eq l := by
  obtain ⟨hpar, hon⟩ := h
  refine ⟨(parallel_to_symm l m).mp hpar, ?_⟩
  rw [lies_on_line_iff_cross _ _ hl]
  rw [lies_on_line_iff_cross _ _ hm] at hon
  obtain ⟨c, hc⟩ := cross_eq_zero_exists_smul l.d m.d hm hpar
  obtain ⟨k, hk⟩ := cross_eq_zero_exists_smul (l.p - m.p) m.d hm hon
  have hswap : m.p - l.p = (-k) * m.d := by
    rw [Vector.eq_iff] at hk ⊢
    simp only [Vector.sub_def, Vector.smul_def] at hk ⊢
    constructor <;> [linarith [hk.1]; linarith [hk.2]]
  rw [hswap, hc]
  simp only [Vector.cross, Vector.smul_def]
  ring

/-- C7 amended: restricted to lines whose direction vectors are
non-zero (the invariant the specification states for `Line`),
`intersects_line` is symmetric: both orders give the same
classification, and in the `single` case the same intersection point. -/
theorem intersects_line_symmetric (a b : Line)
    (ha : a.d ≠ ⟨0, 0⟩) (hb : b.d ≠ ⟨0, 0⟩) :
    a.intersects_line b = b.intersects_line a := by
  by_cases heq : a.eq b
  · have heq2 : b.eq a := line_eq_symm a b ha hb heq
    unfold Line.intersects_line
    rw [if_pos heq, if_pos heq2]
  · have heq2 : ¬ b.eq a := fun h => heq (line_eq_symm b a hb ha h)
    by_cases hpar : a.parallel_to b
    · have hpar2 : b.parallel_to a := (parallel_to_symm a b).mp hpar
      unfold Line.intersects_line
      rw [if_neg heq, if_neg heq2, if_pos hpar, if_pos hpar2]
    · have hpar2 : ¬ b.parallel_to a := fun h => hpar ((parallel_to_symm b a).mp h)
      have hab := line_line_single_intro a b heq hpar
      have hba := line_line_single_intro b a heq2 hpar2
      rw [hab, hba]
      obtain ⟨h1, h2⟩ := intersection_point_on_lines a b hpar
      obtain ⟨h3, h4⟩ := intersection_point_on_lines b a hpar2
      have huniq := on_two_lines_unique a b _ _ hpar h1 h2 h4 h3
      rw [Prod.mk.injEq]
      exact ⟨rfl, by rw [huniq]⟩

theorem intersects_line_symmetric_witness :
    Line.intersects_line ⟨⟨0, 0⟩, ⟨1, 0⟩⟩ ⟨⟨0, 1⟩, ⟨1, 1⟩⟩ =
      Line.intersects_line ⟨⟨0, 1⟩, ⟨1, 1⟩⟩ ⟨⟨0, 0⟩, ⟨1, 0⟩⟩ :=
  intersects_line_symmetric ⟨⟨0, 0⟩, ⟨1, 0⟩⟩ ⟨⟨0, 1⟩, ⟨1, 1⟩⟩
    (by norm_num [Vector.mk.injEq]) (by norm_num [Vector.mk.injEq])

theorem LineSegment.eq_refl (s : LineSegment) : s.eq s := Or.inl ⟨rfl, rfl⟩

theorem LineSegment.eq_symm (s t : LineSegment) (h : s.eq t) : t.eq s := by
  rcases h with ⟨h1, h2⟩ | ⟨h1, h2⟩
  · exact Or.inl ⟨h1.symm, h2.symm⟩
  · exact Or.inr ⟨h2.symm, h1.symm⟩

theorem cross_ne_zero_left (a b : Vector) (h : a.cross b ≠ 0) : a ≠ ⟨0, 0⟩ := by
  intro h0
  rw [h0] at h
  simp [Vector.cross] at h

theorem cross_ne_zero_right (a b : Vector) (h : a.cross b ≠ 0) : b ≠ ⟨0, 0⟩ := by
  intro h0
  rw [h0] at h
  simp [Vector.cross] at h

theorem single_point_on_l (l : Line) (b : LineSegment) (x : Vector)
    (h : l.intersects_line_segment b = (IntersectionType.single, Option.some x)) :
    (x - l.p).cross l.d = 0 := by
  obtain ⟨hil, -⟩ := lineInter_single_elim l b x h
  obtain ⟨-, -, hxf⟩ := line_line_single_elim l b.line_through x hil
  rw [hxf]
  simp only [Vector.cross, Vector.add_def, Vector.sub_def, Vector.smul_def]
  ring

theorem lies_on_own_segment_left (p q : Vector) :
    p.lies_on_line_segment ⟨p, q⟩ := by
  refine ⟨?_, ?_, ?_⟩ <;>
    norm_num [Vector.lies_on_line, LineSegment.line_through, Vector.project_onto_line,
      Vector.project_onto_vector, Vector.sub_def, Vector.dot, Vector.smul_def, Vector.add_def,
      Vector.eq_iff]

theorem lies_on_own_segment_right (p q : Vector) (hne : p ≠ q) :
    q.lies_on_line_segment ⟨p, q⟩ := by
  have hd : q - p ≠ ⟨0, 0⟩ := by
    intro h0
    apply hne
    rw [Vector.eq_iff] at h0 ⊢
    simp only [Vector.sub_def] at h0
    constructor <;> [linarith [h0.1]; linarith [h0.2]]
  have hdd : (q - p).dot (q - p) ≠ 0 := dot_self_ne_zero _ hd
  refine ⟨?_, ?_, ?_⟩
  · rw [lies_on_line_iff_cross _ _ (show (LineSegment.mk p q).line_through.d ≠ ⟨0, 0⟩ from hd)]
    simp only [LineSegment.line_through, Vector.cross, Vector.sub_def]
    ring
  · show 0 ≤ (q - p).dot (q - p) / (q - p).dot (q - p)
    rw [div_self hdd]
    norm_num
  · show (q - p).dot (q - p) / (q - p).dot (q - p) ≤ 1
    rw [div_self hdd]

theorem addScan_mono (target : LineSegment) (segs : List LineSegment) (acc final : List Vector)
    (h : addScan target segs acc = Except.ok final) : ∀ x ∈ acc, x ∈ final := by
  induction segs generalizing acc with
  | nil =>
    rw [addScan] at h
    injection h with h2
    subst h2
    exact fun x hx => hx
  | cons seg rest ih =>
    rw [addScan] at h
    rcases hc : seg.intersects_line_segment target with e | r
    · rw [hc] at h; cases h
    · rw [hc] at h
      rcases r with ⟨t, p?⟩
      cases t with
      | single =>
        cases p? with
        | some p =>
          dsimp only [] at h
          intro x hx
          refine ih _ h x ?_
          split_ifs with hm
          · exact hx
          · exact List.mem_append_left _ hx
        | none =>
          dsimp only [] at h
          exact ih _ h
      | none =>
        dsimp only [] at h
        exact ih _ h
      | infinite =>
        dsimp only [] at h
        exact ih _ h

theorem addScan_catches (target : LineSegment) (segs : List LineSegment) (acc final : List Vector)
    (seg : LineSegment) (p : Vector)
    (hseg : seg.intersects_line_segment target =
      Except.ok (IntersectionType.single, Option.some p))
    (h : addScan target segs acc = Except.ok final) (hmem : seg ∈ segs) : p ∈ final := by
  induction segs generalizing acc with
  | nil => exact absurd hmem (List.not_mem_nil _)
  | cons sg rest ih =>
    rw [addScan] at h
    rcases List.mem_cons.mp hmem with rfl | hmem2
    · rw [hseg] at h
      dsimp only [] at h
      refine addScan_mono _ _ _ _ h p ?_
      split_ifs with hm
      · exact hm
      · exact List.mem_append_right _ (List.mem_singleton.mpr rfl)
    · rcases hc : sg.intersects_line_segment target with e | r
      · rw [hc] at h; cases h
      · rw [hc] at h
        rcases r with ⟨t, pp⟩
        cases t with
        | single =>
          cases pp with
          | some q =>
            dsimp only [] at h
            exact ih _ h hmem2
          | none =>
            dsimp only [] at h
            exact ih _ h hmem2
        | none =>
          dsimp only [] at h
          exact ih _ h hmem2
        | infinite =>
          dsimp only [] at h
          exact ih _ h hmem2

theorem boundaryScan_ok_elim (l : Line) (bs : List LineSegment) (acc pts : List Vector)
    (h : boundaryScan l bs acc = (IntersectionType.single, Option.some pts)) :
    (acc.Nodup → pts.Nodup) ∧
    ∀ x ∈ pts, x ∈ acc ∨ ∃ b ∈ bs, l.intersects_line_segment b =
      (IntersectionType.single, Option.some x) := by
  induction bs generalizing acc with
  | nil =>
    rw [boundaryScan] at h
    injection h with h1 h2
    injection h2 with h2
    subst h2
    exact ⟨fun hn => hn, fun x hx => Or.inl hx⟩
  | cons seg rest ih =>
    rw [boundaryScan, LineSegment.intersects_line] at h
    rcases hc : l.intersects_line_segment seg with ⟨t, p?⟩
    rw [hc] at h
    cases t with
    | infinite =>
      dsimp only [] at h
      exact absurd h (by simp)
    | none =>
      dsimp only [] at h
      obtain ⟨hnd, hmem⟩ := ih acc h
      refine ⟨hnd, fun x hx => ?_⟩
      rcases hmem x hx with hx2 | ⟨b, hb1, hb2⟩
      · exact Or.inl hx2
      · exact Or.inr ⟨b, List.mem_cons_of_mem _ hb1, hb2⟩
    | single =>
      cases p? with
      | none =>
        dsimp only [] at h
        obtain ⟨hnd, hmem⟩ := ih acc h
        refine ⟨hnd, fun x hx => ?_⟩
        rcases hmem x hx with hx2 | ⟨b, hb1, hb2⟩
        · exact Or.inl hx2
        · exact Or.inr ⟨b, List.mem_cons_of_mem _ hb1, hb2⟩
      | some p =>
        dsimp only [] at h
        obtain ⟨hnd, hmem⟩ := ih _ h
        refine ⟨fun hn => hnd ?_, fun x hx => ?_⟩
        · split_ifs with hm
          · exact hn
          · refine List.Nodup.append hn (List.nodup_singleton p) ?_
            intro a ha hpa
            rw [List.mem_singleton] at hpa
            subst hpa
            exact hm ha
        · rcases hmem x hx with hx2 | ⟨b, hb1, hb2⟩
          · by_cases hm : p ∈ acc
            · rw [if_pos hm] at hx2
              exact Or.inl hx2
            · rw [if_neg hm] at hx2
              rcases List.mem_append.mp hx2 with hx3 | hx3
              · exact Or.inl hx3
              · rw [List.mem_singleton] at hx3
                subst hx3
                exact Or.inr ⟨seg, List.mem_cons_self _ _, hc⟩
          · exact Or.inr ⟨b, List.mem_cons_of_mem _ hb1, hb2⟩

theorem seg_catches_point (b : LineSegment) (l : Line) (x p0 p1 : Vector)
    (hb : l.intersects_line_segment b = (IntersectionType.single, Option.some x))
    (hp0 : (p0 - l.p).cross l.d = 0) (hp1 : (p1 - l.p).cross l.d = 0)
    (hne : p0 ≠ p1) (hx : x = p0 ∨ x = p1) :
    b.intersects_line_segment ⟨p0, p1⟩ =
      Except.ok (IntersectionType.single, Option.some x) := by
  obtain ⟨hil, honb⟩ := lineInter_single_elim l b x hb
  obtain ⟨hneq, hnpar, hxf⟩ := line_line_single_elim l b.line_through x hil
  have hcross : l.d.cross b.line_through.d ≠ 0 := hnpar
  have hld : l.d ≠ ⟨0, 0⟩ := cross_ne_zero_left _ _ hcross
  have hbd : b.line_through.d ≠ ⟨0, 0⟩ := cross_ne_zero_right _ _ hcross
  have hdd0 : (p1 - p0).cross l.d = 0 := by
    simp only [Vector.cross, Vector.sub_def] at hp0 hp1 ⊢
    linear_combination hp1 - hp0
  obtain ⟨c, hc⟩ := cross_eq_zero_exists_smul (p1 - p0) l.d hld hdd0
  have hcne : c ≠ 0 := by
    intro h0
    subst h0
    apply hne
    rw [Vector.eq_iff] at hc ⊢
    simp only [Vector.sub_def, Vector.smul_def] at hc
    constructor <;> [linarith [hc.1]; linarith [hc.2]]
  have hC : b.line_through.d.cross (p1 - p0) ≠ 0 := by
    rw [hc]
    have hre : b.line_through.d.cross (c * l.d) = c * b.line_through.d.cross l.d := by
      simp only [Vector.cross, Vector.smul_def]
      ring
    rw [hre]
    refine mul_ne_zero hcne ?_
    rw [Vector.cross_antisymm]
    exact neg_ne_zero.mpr hcross
  have hpar : ¬ b.line_through.parallel_to (LineSegment.mk p0 p1).line_through := by
    show ¬ b.line_through.d.cross (LineSegment.mk p0 p1).line_through.d = 0
    exact hC
  have hneq2 : ¬ b.line_through.eq (LineSegment.mk p0 p1).line_through := fun hh => hpar hh.1
  have hils := line_line_single_intro b.line_through (LineSegment.mk p0 p1).line_through hneq2 hpar
  have hxb : (x - b.line_through.p).cross b.line_through.d = 0 :=
    (lies_on_line_iff_cross x b.line_through hbd).mp honb.1
  have hxls : (x - (LineSegment.mk p0 p1).line_through.p).cross
      (LineSegment.mk p0 p1).line_through.d = 0 := by
    show (x - p0).cross (p1 - p0) = 0
    rcases hx with rfl | rfl
    · simp only [Vector.cross, Vector.sub_def]
      ring
    · simp only [Vector.cross, Vector.sub_def]
      ring
  obtain ⟨hy1, hy2⟩ := intersection_point_on_lines b.line_through
    (LineSegment.mk p0 p1).line_through hpar
  have huniq := on_two_lines_unique b.line_through (LineSegment.mk p0 p1).line_through
    _ x hpar hy1 hy2 hxb hxls
  have hxseg : x.lies_on_line_segment (LineSegment.mk p0 p1) := by
    rcases hx with rfl | rfl
    · exact lies_on_own_segment_left _ _
    · exact lies_on_own_segment_right _ _ hne
  unfold LineSegment.intersects_line_segment
  rw [if_neg hpar]
  simp only [hils]
  rw [huniq, if_pos ⟨honb, hxseg⟩]

set_option maxHeartbeats 1000000 in
theorem paperInv_init : PaperInv OrigamiPaper.init := by
  unfold PaperInv
  refine ⟨rfl, ?_, ?_, ?_, ?_⟩ <;>
    norm_num [OrigamiPaper.init, LineSegment.eq, Vector.lies_on_line_segment, Vector.lies_on_line,
      LineSegment.line_through, Vector.project_onto_line, Vector.project_onto_vector,
      Vector.mk.injEq, LineSegment.mk.injEq]

theorem paperInv_step (s : OrigamiPaper) (l : Line) (s2 : OrigamiPaper)
    (hinv : PaperInv s) (h : s.add_all_intersections l = Except.ok s2) : PaperInv s2 := by
  obtain ⟨hB, hBL, hPts, hNd, hOn⟩ := hinv
  rcases hib : s.intersects_boundary l with ⟨t, pts?⟩
  rw [OrigamiPaper.add_all_intersections] at h
  rw [hib] at h
  cases t with
  | none =>
    dsimp only [] at h
    injection h with h2
    subst h2
    exact ⟨hB, hBL, hPts, hNd, hOn⟩
  | infinite =>
    dsimp only [] at h
    injection h with h2
    subst h2
    exact ⟨hB, hBL, hPts, hNd, hOn⟩
  | single =>
    cases pts? with
    | none =>
      dsimp only [] at h
      injection h with h2
      subst h2
      exact ⟨hB, hBL, hPts, hNd, hOn⟩
    | some pts =>
      rcases pts with - | ⟨p0, pts'⟩
      · dsimp only [] at h
        injection h with h2
        subst h2
        exact ⟨hB, hBL, hPts, hNd, hOn⟩
      rcases pts' with - | ⟨p1, rest⟩
      · dsimp only [] at h
        injection h with h2
        subst h2
        exact ⟨hB, hBL, hPts, hNd, hOn⟩
      dsimp only [] at h
      by_cases hdup : ∃ e ∈ s.linesegs, LineSegment.eq ⟨p0, p1⟩ e
      · rw [if_pos hdup] at h
        injection h with h2
        subst h2
        exact ⟨hB, hBL, hPts, hNd, hOn⟩
      rw [if_neg hdup] at h
      rcases hscan : addScan ⟨p0, p1⟩ (s.linesegs ++ [⟨p0, p1⟩]) s.points with e | newpts
      · rw [hscan] at h
        cases h
      rw [hscan] at h
      dsimp only [] at h
      injection h with h2
      subst h2
      rw [OrigamiPaper.intersects_boundary] at hib
      obtain ⟨hndf, hsrc⟩ := boundaryScan_ok_elim l s.boundary [] _ hib
      have hnodup : (p0 :: p1 :: rest).Nodup := hndf List.nodup_nil
      have hne01 : p0 ≠ p1 := by
        intro hEq
        exact (List.nodup_cons.mp hnodup).1 (by rw [hEq]; exact List.mem_cons_self _ _)
      obtain ⟨b0, hb0mem, hb0⟩ :=
        (hsrc p0 (List.mem_cons_self _ _)).resolve_left (List.not_mem_nil _)
      obtain ⟨b1, hb1mem, hb1⟩ :=
        (hsrc p1 (List.mem_cons_of_mem _ (List.mem_cons_self _ _))).resolve_left
          (List.not_mem_nil _)
      have hp0l := single_point_on_l l b0 p0 hb0
      have hp1l := single_point_on_l l b1 p1 hb1
      have hcatch0 := seg_catches_point b0 l p0 p0 p1 hb0 hp0l hp1l hne01 (Or.inl rfl)
      have hcatch1 := seg_catches_point b1 l p1 p0 p1 hb1 hp0l hp1l hne01 (Or.inr rfl)
      have hmem0 : p0 ∈ newpts :=
        addScan_catches _ _ _ _ b0 p0 hcatch0 hscan
          (List.mem_append_left _ (hBL b0 hb0mem))
      have hmem1 : p1 ∈ newpts :=
        addScan_catches _ _ _ _ b1 p1 hcatch1 hscan
          (List.mem_append_left _ (hBL b1 hb1mem))
      have hmono : ∀ x ∈ s.points, x ∈ newpts := addScan_mono _ _ _ _ hscan
      refine ⟨hB, ?_, ?_, ?_, ?_⟩
      · intro b hbm
        exact List.mem_append_left _ (hBL b hbm)
      · intro c hc
        rcases List.mem_append.mp hc with hcold | hcnew
        · obtain ⟨h1, h2⟩ := hPts c hcold
          exact ⟨hmono _ h1, hmono _ h2⟩
        · rw [List.mem_singleton] at hcnew
          subst hcnew
          exact ⟨hmem0, hmem1⟩
      · rw [List.pairwise_append]
        refine ⟨hNd, by simp, ?_⟩
        intro a ha b hbm
        rw [List.mem_singleton] at hbm
        subst hbm
        intro habs
        exact hdup ⟨a, ha, LineSegment.eq_symm _ _ habs⟩
      · intro c hc
        rcases List.mem_append.mp hc with hcold | hcnew
        · exact hOn c hcold
        · rw [List.mem_singleton] at hcnew
          subst hcnew
          obtain ⟨-, hon0⟩ := lineInter_single_elim l b0 p0 hb0
          obtain ⟨-, hon1⟩ := lineInter_single_elim l b1 p1 hb1
          exact ⟨⟨b0, hb0mem, hon0⟩, ⟨b1, hb1mem, hon1⟩⟩

/-- C1: every paper state reachable from the fresh paper by
`add_all_intersections` calls satisfies the paper invariants: `points`
contains both endpoints of every crease, no two recorded creases are
equal under endpoint swap, and both endpoints of every crease lie on
the paper boundary or strictly inside the unit square. -/
theorem reachable_paper_invariants (s : OrigamiPaper) (h : Reachable s) :
    (∀ c ∈ s.linesegs, c.p1 ∈ s.points ∧ c.p2 ∈ s.points) ∧
    s.linesegs.Pairwise (fun a b => ¬ a.eq b) ∧
    ∀ c ∈ s.linesegs,
      ((∃ b ∈ s.boundary, c.p1.lies_on_line_segment b) ∨
        (0 < c.p1.x ∧ c.p1.x < 1 ∧ 0 < c.p1.y ∧ c.p1.y < 1)) ∧
      ((∃ b ∈ s.boundary, c.p2.lies_on_line_segment b) ∨
        (0 < c.p2.x ∧ c.p2.x < 1 ∧ 0 < c.p2.y ∧ c.p2.y < 1)) := by
  have hinv : PaperInv s := by
    induction h with
    | init => exact paperInv_init
    | step s1 l s2 hr hadd ih => exact paperInv_step s1 l s2 ih hadd
  obtain ⟨hB, hBL, hPts, hNd, hOn⟩ := hinv
  exact ⟨hPts, hNd, fun c hc => ⟨Or.inl (hOn c hc).1, Or.inl (hOn c hc).2⟩⟩

theorem reachable_paper_invariants_witness :
    (∀ c ∈ OrigamiPaper.init.linesegs,
      c.p1 ∈ OrigamiPaper.init.points ∧ c.p2 ∈ OrigamiPaper.init.points) ∧
    OrigamiPaper.init.linesegs.Pairwise (fun a b => ¬ a.eq b) ∧
    ∀ c ∈ OrigamiPaper.init.linesegs,
      ((∃ b ∈ OrigamiPaper.init.boundary, c.p1.lies_on_line_segment b) ∨
        (0 < c.p1.x ∧ c.p1.x < 1 ∧ 0 < c.p1.y ∧ c.p1.y < 1)) ∧
      ((∃ b ∈ OrigamiPaper.init.boundary, c.p2.lies_on_line_segment b) ∨
        (0 < c.p2.x ∧ c.p2.x < 1 ∧ 0 < c.p2.y ∧ c.p2.y < 1)) :=
  reachable_paper_invariants OrigamiPaper.init Reachable.init

/-- C4: a successful `add_all_intersections` call is idempotent: calling
it again with the same fold line leaves both the crease list and the
point list exactly as they were after the first call, because the
candidate crease built from the boundary clip is now recorded and the
duplicate fold is rejected as a no-op. -/
theorem add_all_intersections_idempotent (paper : OrigamiPaper) (l : Line)
    (paper2 : OrigamiPaper) (h : paper.add_all_intersections l = Except.ok paper2) :
    paper2.add_all_intersections l = Except.ok paper2 := by
  rcases hib : paper.intersects_boundary l with ⟨t, pts?⟩
  rw [OrigamiPaper.add_all_intersections] at h
  rw [hib] at h
  cases t with
  | none =>
    dsimp only [] at h
    injection h with h2
    subst h2
    rw [OrigamiPaper.add_all_intersections, hib]
  | infinite =>
    dsimp only [] at h
    injection h with h2
    subst h2
    rw [OrigamiPaper.add_all_intersections, hib]
  | single =>
    cases pts? with
    | none =>
      dsimp only [] at h
      injection h with h2
      subst h2
      rw [OrigamiPaper.add_all_intersections, hib]
    | some pts =>
      rcases pts with - | ⟨p0, pts'⟩
      · dsimp only [] at h
        injection h with h2
        subst h2
        rw [OrigamiPaper.add_all_intersections, hib]
      · rcases pts' with - | ⟨p1, rest⟩
        · dsimp only [] at h
          injection h with h2
          subst h2
          rw [OrigamiPaper.add_all_intersections, hib]
        · dsimp only [] at h
          by_cases hdup : ∃ e ∈ paper.linesegs, LineSegment.eq ⟨p0, p1⟩ e
          · rw [if_pos hdup] at h
            injection h with h2
            subst h2
            rw [OrigamiPaper.add_all_intersections, hib]
            dsimp only []
            rw [if_pos hdup]
          · rw [if_neg hdup] at h
            rcases hscan : addScan ⟨p0, p1⟩ (paper.linesegs ++ [⟨p0, p1⟩]) paper.points
              with e | newpts
            · rw [hscan] at h; cases h
            · rw [hscan] at h
              dsimp only [] at h
              injection h with h2
              subst h2
              have hb2 : OrigamiPaper.intersects_boundary
                  { paper with points := newpts, linesegs := paper.linesegs ++ [⟨p0, p1⟩] } l =
                  (IntersectionType.single, Option.some (p0 :: p1 :: rest)) := by
                rw [OrigamiPaper.intersects_boundary] at hib ⊢
                exact hib
              have hmem : ∃ e ∈ paper.linesegs ++ [(⟨p0, p1⟩ : LineSegment)],
                  LineSegment.eq ⟨p0, p1⟩ e :=
                ⟨⟨p0, p1⟩, List.mem_append_right _ (List.mem_singleton.mpr rfl),
                  LineSegment.eq_refl _⟩
              rw [OrigamiPaper.add_all_intersections, hb2]
              dsimp only []
              rw [if_pos hmem]

theorem add_all_intersections_idempotent_witness :
    paperV.add_all_intersections vline = Except.ok paperV :=
  add_all_intersections_idempotent OrigamiPaper.init vline paperV add_init_vline

/-- C5: `axiom_2` returns the perpendicular bisector - the line through
the midpoint `(p1+p2)/2` with direction `(p2-p1)` rotated a quarter
turn counter-clockwise; on `(0,0)` and `(1,0)` this is the vertical
line `x = 1/2`, and inserting it into the fresh paper adds exactly the
new points `(1/2,0)` and `(1/2,1)` and the new crease between them. -/
theorem axiom_2_perpendicular_bisector :
    (∀ p1 p2 : Vector, p1 ≠ p2 →
      OrigamiPaper.axiom_2 p1 p2 =
        Except.ok ⟨⟨(p1.x + p2.x) / 2, (p1.y + p2.y) / 2⟩, (p2 - p1).rotate90⟩) ∧
    OrigamiPaper.axiom_2 ⟨0, 0⟩ ⟨1, 0⟩ = Except.ok vline ∧
    OrigamiPaper.init.add_all_intersections vline = Except.ok paperV := by
  refine ⟨fun p1 p2 h => ?_, ?_, add_init_vline⟩
  · rw [OrigamiPaper.axiom_2, if_neg h, Vector.truediv, if_neg (by norm_num : (2 : ℚ) ≠ 0)]
    simp [Vector.add_def, Vector.mul_def, division_def]
  · norm_num [OrigamiPaper.axiom_2, Vector.truediv, vline, Vector.mk.injEq, Line.mk.injEq]

end Origami
